import Mathlib

/-!
Verification of the gogame 2D camera module (src/camera.go).

The camera maps coordinates between game space and display space with a
per-axis zoom and a movable center, and delegates drawing primitives to an
output surface. Numbers are modelled by exact rationals; float64 arithmetic
of the source is treated as exact arithmetic. The output surface is not
cached by the camera: every operation queries its current rectangle, so the
embedding passes the current surface rectangle as an explicit argument.
-/

/-- A 2D vector, as in the repository (fields X, Y of float64). -/
@[ext] structure Vec where
  X : ℚ
  Y : ℚ
deriving DecidableEq, Repr

/-- An axis-aligned rectangle given by origin (X, Y) and signed size (W, H),
as in the repository. -/
@[ext] structure Rect where
  X : ℚ
  Y : ℚ
  W : ℚ
  H : ℚ
deriving DecidableEq, Repr

/-- Modelled from the spec: the geometry file of the repository defining the
Center method of Rect is not under src. The spec calls it the center of the
rectangle and its concrete scenario fixes Center of (0,0,800,600) as
(400,300), i.e. the midpoint (X + W/2, Y + H/2). -/
def Rect.Center (r : Rect) : Vec :=
  ⟨r.X + r.W / 2, r.Y + r.H / 2⟩

/-- The camera state: a game-space center and a per-axis zoom.
The VideoOutput field of the Go struct is a capability reference; each
operation below takes the current output rectangle (surf) as an argument,
mirroring the call c.VideoOutput.OutputRect() made on every projection. -/
structure Camera where
  Center : Vec
  Zoom : Vec
deriving DecidableEq, Repr

/-- Project transforms a point from game space to display space
(src/camera.go lines 22-25). -/
def Camera.Project (c : Camera) (surf : Rect) (x y : ℚ) : ℚ × ℚ :=
  let displayCenter := surf.Center
  ((x - c.Center.X) * c.Zoom.X + displayCenter.X,
   (y - c.Center.Y) * c.Zoom.Y + displayCenter.Y)

/-- Unproject transforms a point from display space to game space
(src/camera.go lines 28-31). -/
def Camera.Unproject (c : Camera) (surf : Rect) (x y : ℚ) : ℚ × ℚ :=
  let displayCenter := surf.Center
  ((x - displayCenter.X) / c.Zoom.X + c.Center.X,
   (y - displayCenter.Y) / c.Zoom.Y + c.Center.Y)

/-- ProjectVec transforms a vector from game space to display space. -/
def Camera.ProjectVec (c : Camera) (surf : Rect) (u : Vec) : Vec :=
  let p := c.Project surf u.X u.Y
  ⟨p.1, p.2⟩

/-- UnprojectVec transforms a vector from display space to game space. -/
def Camera.UnprojectVec (c : Camera) (surf : Rect) (u : Vec) : Vec :=
  let p := c.Unproject surf u.X u.Y
  ⟨p.1, p.2⟩

/-- ProjectRect transforms a rectangle from game space to display space
(src/camera.go lines 46-58): re-anchor on each axis whose zoom is negative,
project the origin, scale the size by the zoom. -/
def Camera.ProjectRect (c : Camera) (surf : Rect) (r1 : Rect) : Rect :=
  let r1 := if c.Zoom.X < 0 then { r1 with X := r1.X + r1.W, W := r1.W * (-1) } else r1
  let r1 := if c.Zoom.Y < 0 then { r1 with Y := r1.Y + r1.H, H := r1.H * (-1) } else r1
  let p := c.Project surf r1.X r1.Y
  ⟨p.1, p.2, r1.W * c.Zoom.X, r1.H * c.Zoom.Y⟩

/-- UnprojectRect transforms a rectangle from display space to game space
(src/camera.go lines 61-73): same re-anchoring, unproject the origin, divide
the size by the zoom. -/
def Camera.UnprojectRect (c : Camera) (surf : Rect) (r1 : Rect) : Rect :=
  let r1 := if c.Zoom.X < 0 then { r1 with X := r1.X + r1.W, W := r1.W * (-1) } else r1
  let r1 := if c.Zoom.Y < 0 then { r1 with Y := r1.Y + r1.H, H := r1.H * (-1) } else r1
  let p := c.Unproject surf r1.X r1.Y
  ⟨p.1, p.2, r1.W / c.Zoom.X, r1.H / c.Zoom.Y⟩

/-- OutputRect returns the unprojected output rectangle of the underlying
video output (src/camera.go lines 76-78). -/
def Camera.OutputRect (c : Camera) (surf : Rect) : Rect :=
  c.UnprojectRect surf surf

/-- The call DrawPolygon forwards to the video output: the (already
projected) vertices together with the passthrough parameters. The colour
type is external to the module and kept abstract. -/
structure PolygonCall (α : Type) where
  points : List Vec
  thickness : ℚ
  color : α
deriving DecidableEq

/-- The in-place loop of DrawPolygon (src/camera.go lines 94-96): each slot
of the slice is overwritten with its projection, in order. -/
def Camera.projectPointsLoop (c : Camera) (surf : Rect) : List Vec → List Vec
  | [] => []
  | p :: ps => c.ProjectVec surf p :: c.projectPointsLoop surf ps

/-- DrawPolygon projects every vertex in place and forwards the slice,
thickness and colour to the video output (src/camera.go lines 93-98). -/
def Camera.DrawPolygon {α : Type} (c : Camera) (surf : Rect) (points : List Vec)
    (thickness : ℚ) (color : α) : PolygonCall α :=
  ⟨c.projectPointsLoop surf points, thickness, color⟩

/-- Division with the division-by-zero branch made explicit: none exactly
when the divisor is zero, otherwise the quotient the source computes. -/
def divChecked (a b : ℚ) : Option ℚ :=
  if b = 0 then none else some (a / b)

/-- Unproject with every division site checked: none exactly when some
division by zero is reached. -/
def Camera.UnprojectChecked (c : Camera) (surf : Rect) (x y : ℚ) : Option (ℚ × ℚ) :=
  let displayCenter := surf.Center
  match divChecked (x - displayCenter.X) c.Zoom.X,
        divChecked (y - displayCenter.Y) c.Zoom.Y with
  | some gx, some gy => some (gx + c.Center.X, gy + c.Center.Y)
  | _, _ => none

/-- UnprojectVec with every division site checked. -/
def Camera.UnprojectVecChecked (c : Camera) (surf : Rect) (u : Vec) : Option Vec :=
  match c.UnprojectChecked surf u.X u.Y with
  | some p => some ⟨p.1, p.2⟩
  | none => none

/-- UnprojectRect with every division site checked: the two divisions inside
Unproject and the two divisions of the size by the zoom. -/
def Camera.UnprojectRectChecked (c : Camera) (surf : Rect) (r1 : Rect) : Option Rect :=
  let r1 := if c.Zoom.X < 0 then { r1 with X := r1.X + r1.W, W := r1.W * (-1) } else r1
  let r1 := if c.Zoom.Y < 0 then { r1 with Y := r1.Y + r1.H, H := r1.H * (-1) } else r1
  match c.UnprojectChecked surf r1.X r1.Y,
        divChecked r1.W c.Zoom.X, divChecked r1.H c.Zoom.Y with
  | some p, some w, some h => some ⟨p.1, p.2, w, h⟩
  | _, _, _ => none

/-- Normal form of a rectangle with signed size: same covered region,
non-negative width and height. -/
def Rect.normalize (r : Rect) : Rect :=
  ⟨min r.X (r.X + r.W), min r.Y (r.Y + r.H), |r.W|, |r.H|⟩

/-- C1: Project(x,y) returns exactly
((x - center.x) * zoom.x + oc.x, (y - center.y) * zoom.y + oc.y) where oc is
the center of the current output-surface rectangle, for every camera state
and every current surface rectangle; in particular with surface rect
(0,0,800,600), center (0,0), zoom (2,2), Project(10,5) = (420,310). -/
theorem C1_project_formula :
    (∀ (c : Camera) (surf : Rect) (x y : ℚ),
      c.Project surf x y =
        ((x - c.Center.X) * c.Zoom.X + (surf.X + surf.W / 2),
         (y - c.Center.Y) * c.Zoom.Y + (surf.Y + surf.H / 2))) ∧
    Camera.Project ⟨⟨0, 0⟩, ⟨2, 2⟩⟩ ⟨0, 0, 800, 600⟩ 10 5 = (420, 310) := by
  refine ⟨fun c surf x y => rfl, ?_⟩
  norm_num [Camera.Project, Rect.Center]

/-- C2: Unproject(x,y) returns exactly
((x - oc.x) / zoom.x + center.x, (y - oc.y) / zoom.y + center.y) where oc is
the center of the current output-surface rectangle, for every camera state
with non-zero zoom components; in particular with surface rect (0,0,800,600),
center (0,0), zoom (2,2), Unproject(420,310) = (10,5). -/
theorem C2_unproject_formula :
    (∀ (c : Camera) (surf : Rect) (x y : ℚ), c.Zoom.X ≠ 0 → c.Zoom.Y ≠ 0 →
      c.Unproject surf x y =
        ((x - (surf.X + surf.W / 2)) / c.Zoom.X + c.Center.X,
         (y - (surf.Y + surf.H / 2)) / c.Zoom.Y + c.Center.Y)) ∧
    Camera.Unproject ⟨⟨0, 0⟩, ⟨2, 2⟩⟩ ⟨0, 0, 800, 600⟩ 420 310 = (10, 5) := by
  refine ⟨fun c surf x y hx hy => rfl, ?_⟩
  norm_num [Camera.Unproject, Rect.Center]

/-- Witness for C2 at a concrete input with non-zero zoom. -/
theorem C2_unproject_formula_witness :
    Camera.Unproject ⟨⟨1, 2⟩, ⟨2, 3⟩⟩ ⟨0, 0, 800, 600⟩ 420 310 =
      ((420 - ((0 : ℚ) + 800 / 2)) / 2 + 1, (310 - ((0 : ℚ) + 600 / 2)) / 3 + 2) :=
  C2_unproject_formula.1 ⟨⟨1, 2⟩, ⟨2, 3⟩⟩ ⟨0, 0, 800, 600⟩ 420 310
    (by norm_num) (by norm_num)

/-- C3: for every point p, every camera state with non-zero zoom components
and every surface rectangle, Unproject(Project(p)) = p exactly. -/
theorem C3_round_trip (c : Camera) (surf : Rect) (x y : ℚ)
    (hx : c.Zoom.X ≠ 0) (hy : c.Zoom.Y ≠ 0) :
    c.Unproject surf (c.Project surf x y).1 (c.Project surf x y).2 = (x, y) := by
  simp only [Camera.Project, Camera.Unproject, Prod.mk.injEq]
  constructor
  · field_simp
  · field_simp

/-- Witness for C3 at a concrete input with non-zero zoom. -/
theorem C3_round_trip_witness :
    Camera.Unproject ⟨⟨7, -3⟩, ⟨2, 5⟩⟩ ⟨4, 4, 100, 60⟩
      (Camera.Project ⟨⟨7, -3⟩, ⟨2, 5⟩⟩ ⟨4, 4, 100, 60⟩ 11 13).1
      (Camera.Project ⟨⟨7, -3⟩, ⟨2, 5⟩⟩ ⟨4, 4, 100, 60⟩ 11 13).2 = (11, 13) :=
  C3_round_trip ⟨⟨7, -3⟩, ⟨2, 5⟩⟩ ⟨4, 4, 100, 60⟩ 11 13 (by norm_num) (by norm_num)

/-- C9: with zoom (1,1) and the camera center equal to the center of the
current surface rectangle, Project is the identity. -/
theorem C9_identity_projection (c : Camera) (surf : Rect) (x y : ℚ)
    (hz : c.Zoom = ⟨1, 1⟩) (hc : c.Center = surf.Center) :
    c.Project surf x y = (x, y) := by
  simp only [Camera.Project, hz, hc, Rect.Center, Prod.mk.injEq]
  constructor <;> ring

/-- Witness for C9 at a concrete input. -/
theorem C9_identity_projection_witness :
    Camera.Project ⟨⟨400, 300⟩, ⟨1, 1⟩⟩ ⟨0, 0, 800, 600⟩ 10 5 = (10, 5) :=
  C9_identity_projection ⟨⟨400, 300⟩, ⟨1, 1⟩⟩ ⟨0, 0, 800, 600⟩ 10 5 rfl
    (by norm_num [Rect.Center])

/-- C4: ProjectRect re-anchors each axis whose zoom is negative, projects
the re-anchored origin and scales the size by the zoom, so a rectangle with
non-negative width and height projects to one with non-negative width and
height regardless of zoom sign; with zoom (-1,1), ProjectRect(0,0,10,10)
re-anchors to origin (10,0) with width -10, projects (10,0) and yields final
size (10,10). -/
theorem C4_project_rect_orientation (c : Camera) (surf : Rect) (r : Rect)
    (hw : 0 ≤ r.W) (hh : 0 ≤ r.H) :
    (0 ≤ (c.ProjectRect surf r).W ∧ 0 ≤ (c.ProjectRect surf r).H) ∧
    (c.Zoom = ⟨-1, 1⟩ →
      c.ProjectRect surf ⟨0, 0, 10, 10⟩ =
        ⟨(c.Project surf 10 0).1, (c.Project surf 10 0).2, 10, 10⟩) := by
  constructor
  · simp only [Camera.ProjectRect]
    by_cases h1 : c.Zoom.X < 0 <;> by_cases h2 : c.Zoom.Y < 0 <;>
      simp [h1, h2] <;> constructor <;> nlinarith
  · intro hz
    simp [Camera.ProjectRect, hz]
    norm_num

/-- Witness for C4 at a concrete camera, surface and rectangle. -/
theorem C4_project_rect_orientation_witness :
    (0 ≤ ((⟨⟨0, 0⟩, ⟨-1, 1⟩⟩ : Camera).ProjectRect ⟨0, 0, 800, 600⟩ ⟨0, 0, 10, 10⟩).W ∧
     0 ≤ ((⟨⟨0, 0⟩, ⟨-1, 1⟩⟩ : Camera).ProjectRect ⟨0, 0, 800, 600⟩ ⟨0, 0, 10, 10⟩).H) ∧
    (⟨⟨0, 0⟩, ⟨-1, 1⟩⟩ : Camera).ProjectRect ⟨0, 0, 800, 600⟩ ⟨0, 0, 10, 10⟩ =
      ⟨((⟨⟨0, 0⟩, ⟨-1, 1⟩⟩ : Camera).Project ⟨0, 0, 800, 600⟩ 10 0).1,
       ((⟨⟨0, 0⟩, ⟨-1, 1⟩⟩ : Camera).Project ⟨0, 0, 800, 600⟩ 10 0).2, 10, 10⟩ :=
  ⟨(C4_project_rect_orientation ⟨⟨0, 0⟩, ⟨-1, 1⟩⟩ ⟨0, 0, 800, 600⟩ ⟨0, 0, 10, 10⟩
      (by norm_num) (by norm_num)).1,
   (C4_project_rect_orientation ⟨⟨0, 0⟩, ⟨-1, 1⟩⟩ ⟨0, 0, 800, 600⟩ ⟨0, 0, 10, 10⟩
      (by norm_num) (by norm_num)).2 rfl⟩

/-- C6: under non-zero zoom components, no division site of Unproject,
UnprojectVec or UnprojectRect divides by zero: the checked variants, which
return none exactly when a division by zero is reached, return some with the
exact value the unchecked source functions compute. -/
theorem C6_no_division_by_zero (c : Camera) (surf : Rect)
    (hx : c.Zoom.X ≠ 0) (hy : c.Zoom.Y ≠ 0) :
    (∀ x y, c.UnprojectChecked surf x y = some (c.Unproject surf x y)) ∧
    (∀ u, c.UnprojectVecChecked surf u = some (c.UnprojectVec surf u)) ∧
    (∀ r, c.UnprojectRectChecked surf r = some (c.UnprojectRect surf r)) := by
  have h1 : ∀ x y, c.UnprojectChecked surf x y = some (c.Unproject surf x y) := by
    intro x y
    simp [Camera.UnprojectChecked, Camera.Unproject, divChecked, hx, hy]
  refine ⟨h1, fun u => ?_, fun r => ?_⟩
  · simp [Camera.UnprojectVecChecked, Camera.UnprojectVec, h1]
  · simp only [Camera.UnprojectRectChecked, Camera.UnprojectRect, h1, divChecked,
      if_neg hx, if_neg hy]

/-- Witness for C6 at a concrete camera, surface, point, vector and
rectangle. -/
theorem C6_no_division_by_zero_witness :
    (⟨⟨1, 2⟩, ⟨2, 4⟩⟩ : Camera).UnprojectChecked ⟨0, 0, 800, 600⟩ 420 310 =
      some ((⟨⟨1, 2⟩, ⟨2, 4⟩⟩ : Camera).Unproject ⟨0, 0, 800, 600⟩ 420 310) ∧
    (⟨⟨1, 2⟩, ⟨2, 4⟩⟩ : Camera).UnprojectVecChecked ⟨0, 0, 800, 600⟩ ⟨420, 310⟩ =
      some ((⟨⟨1, 2⟩, ⟨2, 4⟩⟩ : Camera).UnprojectVec ⟨0, 0, 800, 600⟩ ⟨420, 310⟩) ∧
    (⟨⟨1, 2⟩, ⟨2, 4⟩⟩ : Camera).UnprojectRectChecked ⟨0, 0, 800, 600⟩ ⟨5, 6, 70, 80⟩ =
      some ((⟨⟨1, 2⟩, ⟨2, 4⟩⟩ : Camera).UnprojectRect ⟨0, 0, 800, 600⟩ ⟨5, 6, 70, 80⟩) :=
  ⟨(C6_no_division_by_zero ⟨⟨1, 2⟩, ⟨2, 4⟩⟩ ⟨0, 0, 800, 600⟩ (by norm_num)
      (by norm_num)).1 420 310,
   (C6_no_division_by_zero ⟨⟨1, 2⟩, ⟨2, 4⟩⟩ ⟨0, 0, 800, 600⟩ (by norm_num)
      (by norm_num)).2.1 ⟨420, 310⟩,
   (C6_no_division_by_zero ⟨⟨1, 2⟩, ⟨2, 4⟩⟩ ⟨0, 0, 800, 600⟩ (by norm_num)
      (by norm_num)).2.2 ⟨5, 6, 70, 80⟩⟩

/-- C7: OutputRect is exactly UnprojectRect applied to the current native
rectangle of the output surface. -/
theorem C7_output_rect (c : Camera) (surf : Rect)
    (_hx : c.Zoom.X ≠ 0) (_hy : c.Zoom.Y ≠ 0) :
    c.OutputRect surf = c.UnprojectRect surf surf :=
  rfl

/-- Witness for C7 at a concrete camera and surface. -/
theorem C7_output_rect_witness :
    (⟨⟨1, 2⟩, ⟨2, 4⟩⟩ : Camera).OutputRect ⟨0, 0, 800, 600⟩ =
      (⟨⟨1, 2⟩, ⟨2, 4⟩⟩ : Camera).UnprojectRect ⟨0, 0, 800, 600⟩ ⟨0, 0, 800, 600⟩ :=
  C7_output_rect ⟨⟨1, 2⟩, ⟨2, 4⟩⟩ ⟨0, 0, 800, 600⟩ (by norm_num) (by norm_num)

/-- C8: DrawPolygon forwards to the output surface the input sequence with
each vertex transformed per ProjectVec, in the same order and with the same
cardinality, and passes thickness and colour through unchanged. -/
theorem C8_draw_polygon_order {α : Type} (c : Camera) (surf : Rect)
    (points : List Vec) (thickness : ℚ) (color : α) :
    (c.DrawPolygon surf points thickness color).points =
      points.map (c.ProjectVec surf) ∧
    (c.DrawPolygon surf points thickness color).points.length = points.length ∧
    (c.DrawPolygon surf points thickness color).thickness = thickness ∧
    (c.DrawPolygon surf points thickness color).color = color := by
  have hmap : ∀ ps : List Vec, c.projectPointsLoop surf ps = ps.map (c.ProjectVec surf) := by
    intro ps
    induction ps with
    | nil => rfl
    | cons p ps ih => simp [Camera.projectPointsLoop, ih]
  exact ⟨hmap points, by simp [Camera.DrawPolygon, hmap points], rfl, rfl⟩

/-- C10: UnprojectRect inverts ProjectRect exactly on every rectangle,
including rectangles of negative width or height, whenever both zoom
components are non-zero. -/
theorem C10_rect_round_trip (c : Camera) (surf : Rect) (r : Rect)
    (hx : c.Zoom.X ≠ 0) (hy : c.Zoom.Y ≠ 0) :
    c.UnprojectRect surf (c.ProjectRect surf r) = r := by
  by_cases h1 : c.Zoom.X < 0 <;> by_cases h2 : c.Zoom.Y < 0 <;>
    · simp only [Camera.UnprojectRect, Camera.ProjectRect, Camera.Project,
        Camera.Unproject, h1, h2, if_true, if_false, if_pos, if_neg, not_false_iff]
      ext <;> field_simp <;> ring

/-- Witness for C10 at a concrete camera, surface and rectangle with a
negative-width rectangle and a negative zoom component. -/
theorem C10_rect_round_trip_witness :
    (⟨⟨1, 2⟩, ⟨-2, 4⟩⟩ : Camera).UnprojectRect ⟨0, 0, 800, 600⟩
        ((⟨⟨1, 2⟩, ⟨-2, 4⟩⟩ : Camera).ProjectRect ⟨0, 0, 800, 600⟩ ⟨5, 6, -70, 80⟩) =
      ⟨5, 6, -70, 80⟩ :=
  C10_rect_round_trip ⟨⟨1, 2⟩, ⟨-2, 4⟩⟩ ⟨0, 0, 800, 600⟩ ⟨5, 6, -70, 80⟩
    (by norm_num) (by norm_num)

/-- C5 counterexample: with camera center (0,0) and surface rect
(0,0,800,600), the base rectangle (0,0,10,10) projected under zoom (-1,-1)
covers (390,290)-(400,300) while under zoom (1,1) it covers
(400,300)-(410,310): the normalized rectangles differ, so the covered
regions are not identical. -/
theorem C5_counterexample :
    ¬ (Rect.normalize
        ((⟨⟨0, 0⟩, ⟨-1, -1⟩⟩ : Camera).ProjectRect ⟨0, 0, 800, 600⟩ ⟨0, 0, 10, 10⟩) =
       Rect.normalize
        ((⟨⟨0, 0⟩, ⟨1, 1⟩⟩ : Camera).ProjectRect ⟨0, 0, 800, 600⟩ ⟨0, 0, 10, 10⟩)) := by
  simp only [Camera.ProjectRect, Camera.Project, Rect.Center, Rect.normalize]
  norm_num [Rect.mk.injEq]

/-- C5 amended: for every base rectangle, camera center and surface
rectangle, ProjectRect under zoom (-1,-1) and under zoom (1,1) produce
rectangles of identical normalized width and height (the covered area has
the same size), but the region covered under zoom (-1,-1) is the point
reflection through the display center of the region covered under zoom
(1,1), not the identical region. -/
theorem C5_flip_reflection (center : Vec) (surf : Rect) (r : Rect) :
    ((Camera.mk center ⟨-1, -1⟩).ProjectRect surf r).normalize.W =
      ((Camera.mk center ⟨1, 1⟩).ProjectRect surf r).normalize.W ∧
    ((Camera.mk center ⟨-1, -1⟩).ProjectRect surf r).normalize.H =
      ((Camera.mk center ⟨1, 1⟩).ProjectRect surf r).normalize.H ∧
    ((Camera.mk center ⟨-1, -1⟩).ProjectRect surf r).normalize.X =
      2 * surf.Center.X -
        (((Camera.mk center ⟨1, 1⟩).ProjectRect surf r).normalize.X +
         ((Camera.mk center ⟨1, 1⟩).ProjectRect surf r).normalize.W) ∧
    ((Camera.mk center ⟨-1, -1⟩).ProjectRect surf r).normalize.Y =
      2 * surf.Center.Y -
        (((Camera.mk center ⟨1, 1⟩).ProjectRect surf r).normalize.Y +
         ((Camera.mk center ⟨1, 1⟩).ProjectRect surf r).normalize.H) := by
  simp only [Camera.ProjectRect, Camera.Project, Rect.Center, Rect.normalize]
  norm_num
  rcases le_or_lt 0 r.W with hw | hw <;> rcases le_or_lt 0 r.H with hh | hh <;>
    refine ⟨?_, ?_⟩
  · rw [inf_eq_left.mpr (le_add_of_nonneg_right hw),
      inf_eq_left.mpr (le_add_of_nonneg_right hw), abs_of_nonneg hw]
    ring
  · rw [inf_eq_left.mpr (le_add_of_nonneg_right hh),
      inf_eq_left.mpr (le_add_of_nonneg_right hh), abs_of_nonneg hh]
    ring
  · rw [inf_eq_left.mpr (le_add_of_nonneg_right hw),
      inf_eq_left.mpr (le_add_of_nonneg_right hw), abs_of_nonneg hw]
    ring
  · rw [inf_eq_right.mpr ((add_le_iff_nonpos_right _).mpr hh.le),
      inf_eq_right.mpr ((add_le_iff_nonpos_right _).mpr hh.le), abs_of_neg hh]
    ring
  · rw [inf_eq_right.mpr ((add_le_iff_nonpos_right _).mpr hw.le),
      inf_eq_right.mpr ((add_le_iff_nonpos_right _).mpr hw.le), abs_of_neg hw]
    ring
  · rw [inf_eq_left.mpr (le_add_of_nonneg_right hh),
      inf_eq_left.mpr (le_add_of_nonneg_right hh), abs_of_nonneg hh]
    ring
  · rw [inf_eq_right.mpr ((add_le_iff_nonpos_right _).mpr hw.le),
      inf_eq_right.mpr ((add_le_iff_nonpos_right _).mpr hw.le), abs_of_neg hw]
    ring
  · rw [inf_eq_right.mpr ((add_le_iff_nonpos_right _).mpr hh.le),
      inf_eq_right.mpr ((add_le_iff_nonpos_right _).mpr hh.le), abs_of_neg hh]
    ring
